import Mathlib

/-!
# Verification of the Bluesky Swahili discovery crawler (`src/crawler.ts`)

Shallow embedding of the discovery crawler module.  JavaScript numbers are
modelled as `ℚ` (all arithmetic in the module stays well within exact range),
`Math.random()` draws are modelled as explicit draw streams `ℕ → ℚ`
(the source uses one ambient global generator; each call site here receives
its own independent stream, which produces exactly the same set of possible
behaviours since each draw is an arbitrary value in `[0,1)`), the network
client and the language classifier are oracles supplied as parameters, and
the filesystem holding the persisted cache blob is an explicit `FileState`.
JavaScript string `.length`/`.slice` count UTF-16 code units; we count
characters, which agrees on all texts used in the development.
-/

namespace Crawler

/-- A single result row returned by `langdetect.detect`. -/
structure LangResult where
  lang : String
  prob : ℚ
deriving Repr, DecidableEq

/-- The language classifier: `none` models `langdetect.detect` throwing. -/
def Detect : Type := String → Option (List LangResult)

/-- Whitespace stripped by JavaScript `String.prototype.trim` (the ASCII
part; the Unicode space classes never occur in this development). -/
def isJsWs (c : Char) : Bool :=
  (c = ' ' ∨ c = '\t' ∨ c = '\n' ∨ c = '\r' ∨ c = '\x0b' ∨ c = '\x0c' : Bool)

/-- `text.trim()`: strip whitespace from both ends. -/
def jsTrim (s : String) : String :=
  String.mk (((s.toList.dropWhile isJsWs).reverse.dropWhile isJsWs).reverse)

/-- `isSwahili` from `crawler.ts`: empty/short texts short-circuit to
`(false, 0)`; a thrown classifier is caught; otherwise the first result with
`lang = "sw"` must have probability `≥ 0.9`. -/
def isSwahili (detect : Detect) (text : String) : Bool × ℚ :=
  if text = "" ∨ (jsTrim text).length < 10 then
    (false, 0)
  else
    match detect text with
    | none => (false, 0)
    | some results =>
      match results.find? (fun r => r.lang = "sw") with
      | some r => if r.prob ≥ 9/10 then (true, r.prob) else (false, 0)
      | none => (false, 0)

/-- `\w` of the source regex `/#[\w؀-ۿ]+/g` plus its explicit
Arabic-script range, by code point: `a`–`z` (0x61–0x7A), `A`–`Z`
(0x41–0x5A), `0`–`9` (0x30–0x39), `_` (0x5F), or `U+0600`–`U+06FF`. -/
def isWordChar (c : Char) : Bool :=
  ((0x61 ≤ c.toNat ∧ c.toNat ≤ 0x7A) ∨ (0x41 ≤ c.toNat ∧ c.toNat ≤ 0x5A) ∨
    (0x30 ≤ c.toNat ∧ c.toNat ≤ 0x39) ∨ c.toNat = 0x5F ∨
    (0x600 ≤ c.toNat ∧ c.toNat ≤ 0x6FF) : Bool)

/-- Normalisation applied to one regex match `#run`: the source lowercases
the whole match and `replace("#", "")` strips its first (and only) `#`,
leaving the lowercased run. -/
def tagOf (buf : List Char) : String :=
  String.mk (buf.map Char.toLower)

/-- Left-to-right scanner for the non-overlapping matches of
`/#[\w؀-ۿ]+/g`: state `none` is outside a candidate match, state
`some buf` holds the word-character run collected after a `#` (a `#` with
an empty run is not a match, and a `#` ends a run and starts a new
candidate, exactly as the regex engine resumes after a match or a failed
attempt). -/
def scanGo : Option (List Char) → List Char → List String
  | none, [] => []
  | some buf, [] => if buf.isEmpty then [] else [tagOf buf]
  | none, c :: rest => if c = '#' then scanGo (some []) rest else scanGo none rest
  | some buf, c :: rest =>
    if isWordChar c then scanGo (some (buf ++ [c])) rest
    else
      let tail := if c = '#' then scanGo (some []) rest else scanGo none rest
      if buf.isEmpty then tail else tagOf buf :: tail

/-- `extractHashtags` from `crawler.ts`. -/
def extractHashtags (text : String) : List String :=
  scanGo none text.toList

/-- `calculateEngagement` from `crawler.ts`: `likes + 2·reposts + 3·replies`
(missing counts default to 0 and are folded into the `ℕ` fields). -/
def calculateEngagement (likes reposts replies : ℕ) : ℚ :=
  (likes : ℚ) + (reposts : ℚ) * 2 + (replies : ℚ) * 3

section WeightedSelect

variable {α : Type*}

/-- The `reduce` computing `totalWeight` in `weightedRandomSelect`: each
item contributes its weight plus a fresh `Math.random() * 0.5` jitter,
drawn from stream `g` starting at index `k`. -/
def wrsTotal (wt : α → ℚ) (g : ℕ → ℚ) : ℕ → List α → ℚ
  | _, [] => 0
  | k, x :: xs => (wt x + g k * (1/2)) + wrsTotal wt g (k + 1) xs

/-- The inner `for j` scan of `weightedRandomSelect`: subtract
`weight + fresh jitter` from `random` for each remaining item; the first
item driving it `≤ 0` is selected and spliced out.  Returns the selected
item (if any), the remaining pool, and the next unused draw index. -/
def wrsScan (wt : α → ℚ) (g : ℕ → ℚ) : ℕ → ℚ → List α → Option α × List α × ℕ
  | k, _, [] => (none, [], k)
  | k, random, x :: xs =>
    let r := random - (wt x + g k * (1/2))
    if r ≤ 0 then (some x, xs, k + 1)
    else
      let (sel, rest, k') := wrsScan wt g (k + 1) r xs
      (sel, x :: rest, k')

/-- The outer `for i` loop of `weightedRandomSelect`: one pass per target
slot; a pass whose scan selects nothing still consumes the slot. -/
def wrsGo (wt : α → ℚ) (g : ℕ → ℚ) : ℕ → ℕ → List α → List α
  | 0, _, _ => []
  | _ + 1, _, [] => []
  | count + 1, k, remaining@(_ :: _) =>
    let n := remaining.length
    let totalWeight := wrsTotal wt g k remaining
    let random := g (k + n) * totalWeight
    match wrsScan wt g (k + n + 1) random remaining with
    | (some x, rest, k') => x :: wrsGo wt g count k' rest
    | (none, _, k') => wrsGo wt g count k' remaining

/-- `weightedRandomSelect` from `crawler.ts`, over items of type `α` with
weight projection `wt` (the source's `T extends { weight: number }`), draw
stream `g`, first draw index `k`. -/
def weightedRandomSelect (wt : α → ℚ) (g : ℕ → ℚ) (k : ℕ)
    (items : List α) (count : ℕ) : List α :=
  if items.length ≤ count then items else wrsGo wt g count k items

end WeightedSelect

/-! ## Cache data model and persistence (`loadCache` / `saveCache`) -/

/-- `CachedProfile` from `crawler.ts`. -/
structure CachedProfile where
  did : String
  handle : String
  displayName : Option String
  discoveredAt : String
  lastSeen : String
  swahiliPostCount : ℕ
  engagementScore : ℚ
  discoveredFrom : String
  tags : List String
deriving Repr, DecidableEq

/-- `DiscoveryCache` from `crawler.ts`.  The `profiles` record is modelled
as an association list in insertion order (JavaScript objects with string
keys enumerate in insertion order), with `did` as the key. -/
structure DiscoveryCache where
  version : String
  lastUpdated : String
  totalDiscoveries : ℕ
  profiles : List (String × CachedProfile)
  seedProfiles : List String
  crawlHistory : List String
deriving Repr, DecidableEq

/-- State of the persisted cache blob on disk: no file, an unparsable
file (`JSON.parse` throws), or a parsed `DiscoveryCache`. -/
inductive FileState where
  | absent : FileState
  | corrupt : FileState
  | stored : DiscoveryCache → FileState
deriving Repr, DecidableEq

/-- The default cache built by `loadCache` when the file is missing or
unreadable; `now` is `new Date().toISOString()`. -/
def defaultCache (now : String) : DiscoveryCache :=
  { version := "2.0"
    lastUpdated := now
    totalDiscoveries := 0
    profiles := []
    seedProfiles := ["changetanzania.bsky.social", "tanzania.bsky.social", "kenya.bsky.social"]
    crawlHistory := []
  }

/-- `loadCache` from `crawler.ts`: missing file or parse failure falls back
to the default cache; a parsed cache with a falsy `version` (a JSON blob
predating versioning, modelled as the empty string) is migrated in place. -/
def loadCache (fs : FileState) (now : String) : DiscoveryCache :=
  match fs with
  | FileState.absent => defaultCache now
  | FileState.corrupt => defaultCache now
  | FileState.stored cache =>
    if cache.version = "" then { cache with version := "2.0" } else cache

/-- `saveCache` from `crawler.ts`: stamps `lastUpdated` and overwrites the
blob (the write-failure path only logs; the successful write is modelled). -/
def saveCache (cache : DiscoveryCache) (now : String) : FileState :=
  FileState.stored { cache with lastUpdated := now }

/-- The crawl-history update at the end of `crawlForNewProfiles`: append
the starting handle; if the log then exceeds 50 entries, keep the most
recent 25 (`slice(-25)`). -/
def pushCrawlHistory (history : List String) (startHandle : String) : List String :=
  let h := history ++ [startHandle]
  if 50 < h.length then h.drop (h.length - 25) else h

/-- The merge step of the discovery orchestrator (`smartDiscoverSwahiliPosts`
exploration loops): a crawled candidate is inserted only when its `did` is
absent, incrementing `totalDiscoveries` and the call's
`newProfilesDiscovered` counter. -/
def mergeCandidate (cache : DiscoveryCache) (newDiscovered : ℕ)
    (profile : CachedProfile) : DiscoveryCache × ℕ :=
  match cache.profiles.lookup profile.did with
  | some _ => (cache, newDiscovered)
  | none =>
    ({ cache with
        profiles := cache.profiles ++ [(profile.did, profile)]
        totalDiscoveries := cache.totalDiscoveries + 1 },
      newDiscovered + 1)

/-! ## Network model and `crawlForNewProfiles` -/

/-- An account as returned in follower/following lists and as post author. -/
structure ActorView where
  did : String
  handle : String
  displayName : Option String
deriving Repr, DecidableEq

/-- The loosely-typed `post.record` / `item.post.record` cast of the source:
both fields may be missing. -/
structure PostRecord where
  text : Option String
  createdAt : Option String
deriving Repr, DecidableEq

/-- A post view: uri, cid, author, optional record, interaction counts
(missing counts are folded into 0, matching `post.likeCount || 0`). -/
structure PostView where
  uri : String
  cid : String
  author : ActorView
  record : Option PostRecord
  likeCount : ℕ
  repostCount : ℕ
  replyCount : ℕ
deriving Repr, DecidableEq

/-- An author-feed item (`item.post`). -/
structure FeedItem where
  post : PostView
deriving Repr, DecidableEq

/-- The external world of one discovery call: the network client (each
operation takes its request limit and returns `none` when the call throws;
`getProfile`'s inner `Option` distinguishes a response with falsy `data`,
which triggers the crawler's early `return`, from a thrown call), the
language classifier, and the clock (`now` = `new Date().toISOString()`,
`nowMs` = `Date.now()`, `dateOf s` = `new Date(s).getTime()` with `none`
for `NaN`). -/
structure Env where
  getProfile : String → Option (Option String)
  getFollowers : String → ℕ → Option (List ActorView)
  getFollows : String → ℕ → Option (List ActorView)
  getAuthorFeed : String → ℕ → Option (List FeedItem)
  searchPosts : String → ℕ → Option (List PostView)
  detect : Detect
  now : String
  nowMs : ℚ
  dateOf : String → Option ℚ

/-- The truthy `record?.text` of the source: present and non-empty. -/
def recordText (p : PostView) : Option String :=
  match p.record with
  | none => none
  | some r =>
    match r.text with
    | none => none
    | some t => if t = "" then none else some t

/-- `[...new Set(tags)]`: first-occurrence deduplication in insertion
order. -/
def jsSetDedup (l : List String) : List String :=
  l.foldl (fun acc t => if t ∈ acc then acc else acc ++ [t]) []

/-- Swap two positions of a list (the Fisher–Yates swap
`[a[i], a[j]] = [a[j], a[i]]`); out-of-range indices leave the list
unchanged (never exercised by in-range calls). -/
def listSwap {α : Type*} (l : List α) (i j : ℕ) : List α :=
  match l.get? i, l.get? j with
  | some a, some b => (l.set i b).set j a
  | _, _ => l

/-- The Fisher–Yates loop of `shuffle`: at index `i` (counting down from
`length - 1` to `1`) swap with `j = Math.floor(Math.random() * (i + 1))`. -/
def shuffleGo {α : Type*} (g : ℕ → ℚ) : ℕ → List α → ℕ → List α
  | _, l, 0 => l
  | k, l, i + 1 =>
    shuffleGo g (k + 1) (listSwap l (i + 1) (Int.toNat ⌊g k * ((i : ℚ) + 2)⌋)) i

/-- `shuffle` from `crawler.ts`, with draw stream `g` starting at index `k`. -/
def shuffle {α : Type*} (g : ℕ → ℚ) (k : ℕ) (l : List α) : List α :=
  shuffleGo g k l (l.length - 1)

/-- The fixed hashtag list of crawl strategy 3. -/
def swahiliHashtags : List String :=
  ["kiswahili", "swahili", "habari", "tanzania", "kenya", "uganda", "jambo",
   "karibu", "afrika", "mashariki", "nairobi", "daressalaam", "mombasa",
   "swahilipost", "lugha"]

/-- The fixed phrase list of crawl strategy 4. -/
def swahiliPhrases : List String :=
  ["habari yako", "asante sana", "karibu sana", "jambo", "mambo vipi"]

/-- Mutable state of one `crawlForNewProfiles` call: the accumulated new
profiles and the `checked` set of dids (seeded from the cache's keys). -/
structure CrawlSt where
  newProfiles : List CachedProfile
  checked : List String
deriving Repr, DecidableEq

/-- The per-candidate check shared by crawl strategies 1 and 2: fetch up to
10 recent posts, count the ones validating as Swahili and collect their
hashtags; build a profile when at least one validates.  A thrown feed fetch
skips the candidate. -/
def checkCandidate (env : Env) (discFrom : String) (actor : ActorView) :
    Option CachedProfile :=
  match env.getAuthorFeed actor.did 10 with
  | none => none
  | some feed =>
    let counted := feed.foldl
      (fun (acc : ℕ × List String) item =>
        match recordText item.post with
        | none => acc
        | some t =>
          if (isSwahili env.detect t).1 then (acc.1 + 1, acc.2 ++ extractHashtags t)
          else acc)
      (0, [])
    if 0 < counted.1 then
      some { did := actor.did
             handle := actor.handle
             displayName := actor.displayName
             discoveredAt := env.now
             lastSeen := env.now
             swahiliPostCount := counted.1
             engagementScore := 1
             discoveredFrom := discFrom
             tags := jsSetDedup counted.2 }
    else none

/-- Strategy 1 loop (followers): skip known dids, mark checked, add a
validated candidate, and break at the end of the body once the cap is
reached. -/
def strat1Loop (env : Env) (discFrom : String) (maxProfiles : ℕ) :
    List ActorView → CrawlSt → CrawlSt
  | [], st => st
  | a :: rest, st =>
    if a.did ∈ st.checked then strat1Loop env discFrom maxProfiles rest st
    else
      let st1 : CrawlSt := { st with checked := st.checked ++ [a.did] }
      let st2 : CrawlSt :=
        match checkCandidate env discFrom a with
        | some p => { st1 with newProfiles := st1.newProfiles ++ [p] }
        | none => st1
      if maxProfiles ≤ st2.newProfiles.length then st2
      else strat1Loop env discFrom maxProfiles rest st2

/-- Strategy 2 loop (follows): like strategy 1 but the cap break is at the
start of the body, right after the known-did skip. -/
def strat2Loop (env : Env) (discFrom : String) (maxProfiles : ℕ) :
    List ActorView → CrawlSt → CrawlSt
  | [], st => st
  | a :: rest, st =>
    if a.did ∈ st.checked then strat2Loop env discFrom maxProfiles rest st
    else if maxProfiles ≤ st.newProfiles.length then st
    else
      let st1 : CrawlSt := { st with checked := st.checked ++ [a.did] }
      let st2 : CrawlSt :=
        match checkCandidate env discFrom a with
        | some p => { st1 with newProfiles := st1.newProfiles ++ [p] }
        | none => st1
      strat2Loop env discFrom maxProfiles rest st2

/-- The inner post loop shared by crawl strategies 3 and 4: skip known
authors, break at the cap, validate the post's own text at the crawl
threshold and build a profile from that single post. -/
def postSearchLoop (env : Env) (discFrom : String) (maxProfiles : ℕ) :
    List PostView → CrawlSt → CrawlSt
  | [], st => st
  | p :: rest, st =>
    if p.author.did ∈ st.checked then postSearchLoop env discFrom maxProfiles rest st
    else if maxProfiles ≤ st.newProfiles.length then st
    else
      let st1 : CrawlSt := { st with checked := st.checked ++ [p.author.did] }
      let st2 : CrawlSt :=
        match recordText p with
        | none => st1
        | some t =>
          if (isSwahili env.detect t).1 then
            { st1 with newProfiles := st1.newProfiles ++
                [{ did := p.author.did
                   handle := p.author.handle
                   displayName := p.author.displayName
                   discoveredAt := env.now
                   lastSeen := env.now
                   swahiliPostCount := 1
                   engagementScore := calculateEngagement p.likeCount p.repostCount p.replyCount
                   discoveredFrom := discFrom
                   tags := extractHashtags t }] }
          else st1
      postSearchLoop env discFrom maxProfiles rest st2

/-- Strategy 3 outer loop over the sampled hashtags: break at the cap;
a thrown search only skips that tag. -/
def strat3Loop (env : Env) (maxProfiles : ℕ) : List String → CrawlSt → CrawlSt
  | [], st => st
  | tag :: rest, st =>
    if maxProfiles ≤ st.newProfiles.length then st
    else
      let st1 :=
        match env.searchPosts ("#" ++ tag) 30 with
        | none => st
        | some posts => postSearchLoop env ("hashtag:" ++ tag) maxProfiles posts st
      strat3Loop env maxProfiles rest st1

/-- `crawlForNewProfiles` from `crawler.ts`.  `gTags` drives the hashtag
shuffle of strategy 3 and `gPhrase` the phrase pick of strategy 4.  A falsy
`profile.data` hits the early `return`, which bypasses the crawl-history
update; a thrown `getProfile` reaches the outer `catch` and the history
update still runs. -/
def crawlForNewProfiles (env : Env) (cache : DiscoveryCache) (startHandle : String)
    (maxProfiles : ℕ) (gTags : ℕ → ℚ) (gPhrase : ℚ) :
    List CachedProfile × DiscoveryCache :=
  match env.getProfile startHandle with
  | some none => ([], cache)
  | none =>
    ([], { cache with crawlHistory := pushCrawlHistory cache.crawlHistory startHandle })
  | some (some did) =>
    let st : CrawlSt := ⟨[], cache.profiles.map (·.1)⟩
    let st :=
      match env.getFollowers did 50 with
      | none => st
      | some followers =>
        strat1Loop env ("follower_of:" ++ startHandle) maxProfiles followers st
    let st :=
      match env.getFollows did 50 with
      | none => st
      | some follows =>
        strat2Loop env ("following_of:" ++ startHandle) maxProfiles follows st
    let tagsToSearch := (shuffle gTags 0 swahiliHashtags).take 3
    let st := strat3Loop env maxProfiles tagsToSearch st
    let phrase := swahiliPhrases.getD (Int.toNat ⌊gPhrase * 5⌋) ""
    let st :=
      match env.searchPosts phrase 25 with
      | none => st
      | some posts => postSearchLoop env ("phrase:" ++ phrase) maxProfiles posts st
    (st.newProfiles,
      { cache with crawlHistory := pushCrawlHistory cache.crawlHistory startHandle })

/-! ## The discovery orchestrator (`smartDiscoverSwahiliPosts`) -/

/-- `freshness` option. -/
inductive Freshness where
  | recent : Freshness
  | any : Freshness
deriving Repr, DecidableEq

/-- `SmartDiscoveryOptions` with the source's defaults applied
(`maxCrawlDepth` is destructured by the source but never used). -/
structure SmartOpts where
  limit : ℕ := 50
  maxCrawlDepth : ℕ := 2
  explorationRate : ℚ := 2/5
  tags : List String := []
  freshness : Freshness := Freshness.any
deriving Repr, DecidableEq

/-- `DiscoveredPost` from `crawler.ts`. -/
structure DiscoveredPost where
  uri : String
  cid : String
  text : String
  createdAt : String
  author : ActorView
  confidence : ℚ
  discoveryMethod : String
  engagementScore : ℚ
deriving Repr, DecidableEq

/-- A cached profile annotated with its transient selection weight
(the source's `{ ...p, weight }` spread). -/
structure WProfile where
  profile : CachedProfile
  weight : ℚ
deriving Repr, DecidableEq

/-- The random draws of one orchestrator call, one source per call site.
`seedSort` models `.sort(() => Math.random() - 0.5)` and `rank` the final
jittered ranking sort: JavaScript's sort with an impure comparator has
implementation-defined output, so both are oracles; theorems that depend
on them assume they permute their input. -/
structure Rng where
  explore : ℚ
  seedSort : List CachedProfile → List CachedProfile
  seedShuffle : ℕ → ℚ
  crawlTags : ℕ → ℕ → ℚ
  crawlPhrase : ℕ → ℚ
  weights : ℕ → ℚ
  profShuffle : ℕ → ℚ
  select : ℕ → ℚ
  backfillShuffle : ℕ → ℚ
  rank : List DiscoveredPost → List DiscoveredPost

/-- JavaScript `o || d` over an optional string (empty string is falsy). -/
def jsOrElse (o : Option String) (d : String) : String :=
  match o with
  | some s => if s = "" then d else s
  | none => d

/-- Truthiness of an optional string field. -/
def jsTruthyStr (o : Option String) : Option String :=
  match o with
  | some s => if s = "" then none else some s
  | none => none

/-- Merge a list of crawled candidates into the cache
(the `for (const profile of newProfiles)` loops of the orchestrator). -/
def mergeAll (cache : DiscoveryCache) (n : ℕ) (ps : List CachedProfile) :
    DiscoveryCache × ℕ :=
  ps.foldl (fun acc p => mergeCandidate acc.1 acc.2 p) (cache, n)

/-- The full-exploration loop: crawl from `seeds[i]` for
`i = 0 .. crawlCount - 1` (cap 25 per crawl) and merge each result. -/
def fullLoop (env : Env) (rng : Rng) (seeds : List String) :
    ℕ → ℕ → DiscoveryCache → ℕ → DiscoveryCache × ℕ
  | _, 0, cache, n => (cache, n)
  | i, c + 1, cache, n =>
    let startHandle := seeds.getD i ""
    let (newProfiles, cache1) :=
      crawlForNewProfiles env cache startHandle 25 (rng.crawlTags i) (rng.crawlPhrase i)
    let (cache2, n2) := mergeAll cache1 n newProfiles
    fullLoop env rng seeds (i + 1) c cache2 n2

/-- The exploration phase of the orchestrator: mode decision, then full
exploration (up to 5 crawls), mini exploration (one crawl, cap 10), or
nothing.  Returns the updated cache and `newProfilesDiscovered`. -/
def explorePhase (env : Env) (rng : Rng) (opts : SmartOpts)
    (cache : DiscoveryCache) : DiscoveryCache × ℕ :=
  let cacheSize := cache.profiles.length
  let shouldFullExplore := rng.explore < opts.explorationRate ∨ cacheSize < 15
  let shouldMiniExplore := cacheSize < 50
  let allSeeds := cache.seedProfiles ++
    ((rng.seedSort (cache.profiles.map (·.2))).take 30).map (·.handle)
  let seeds := shuffle rng.seedShuffle 0 allSeeds
  if shouldFullExplore then
    fullLoop env rng seeds 0 (min 5 seeds.length) cache 0
  else if shouldMiniExplore then
    let (newProfiles, cache1) :=
      crawlForNewProfiles env cache (seeds.getD 0 "") 10 (rng.crawlTags 0) (rng.crawlPhrase 0)
    mergeAll cache1 0 newProfiles
  else (cache, 0)

/-- The per-profile sampling weight:
`2·swahiliPostCount + 0.1·engagementScore + (5 on a tag-filter match) +
Math.random()·3`. -/
def profileWeight (opts : SmartOpts) (jitter : ℚ) (p : CachedProfile) : ℚ :=
  (p.swahiliPostCount : ℚ) * 2 + p.engagementScore * (1/10) +
    (if opts.tags ≠ [] ∧ p.tags.any (fun t => t ∈ opts.tags) then 5 else 0) +
    jitter * 3

/-- Mutable state threaded through the harvest and backfill phases. -/
structure HarvestSt where
  posts : List DiscoveredPost
  seenUris : List String
  seenTexts : List String
  cache : DiscoveryCache
  newDiscovered : ℕ
deriving Repr, DecidableEq

/-- `record.text.slice(0, 100)`: the dedup text hash. -/
def textHash100 (t : String) : String :=
  String.mk (t.toList.take 100)

/-- Bump `lastSeen` and `swahiliPostCount` of the entry keyed `did`
(the post-accept `cache.profiles[profile.did]` update). -/
def updateStats (now : String) (did : String) :
    List (String × CachedProfile) → List (String × CachedProfile)
  | [] => []
  | (k, p) :: rest =>
    if k = did then
      (k, { p with lastSeen := now, swahiliPostCount := p.swahiliPostCount + 1 }) :: rest
    else (k, p) :: updateStats now did rest

/-- The body of the harvest inner loop for one feed item: dedup, freshness
filter (only when `createdAt` is truthy; an unparsable date compares `NaN`
and is kept), language validation, tag filter, then accept the post and
bump the selected profile's stats. -/
def harvestPost (env : Env) (opts : SmartOpts) (profile : CachedProfile)
    (st : HarvestSt) (item : FeedItem) : HarvestSt :=
  match item.post.record with
  | none => st
  | some r =>
    match jsTruthyStr r.text with
    | none => st
    | some text =>
      let hash := textHash100 text
      if item.post.uri ∈ st.seenUris ∨ hash ∈ st.seenTexts then st
      else
        let freshSkip :=
          match opts.freshness, jsTruthyStr r.createdAt with
          | Freshness.recent, some s =>
            match env.dateOf s with
            | some t => decide (t < env.nowMs - 604800000)
            | none => false
          | _, _ => false
        if freshSkip then st
        else
          let sw := isSwahili env.detect text
          if ¬ sw.1 then st
          else if opts.tags ≠ [] ∧
              ¬ (extractHashtags text).any (fun t => t ∈ opts.tags) then st
          else
            { st with
              seenUris := st.seenUris ++ [item.post.uri]
              seenTexts := st.seenTexts ++ [hash]
              posts := st.posts ++
                [{ uri := item.post.uri
                   cid := item.post.cid
                   text := text
                   createdAt := jsOrElse r.createdAt env.now
                   author := item.post.author
                   confidence := sw.2
                   discoveryMethod := profile.discoveredFrom
                   engagementScore := calculateEngagement item.post.likeCount
                     item.post.repostCount item.post.replyCount }]
              cache := { st.cache with
                profiles := updateStats env.now profile.did st.cache.profiles } }

/-- The harvest inner loop over one author feed, breaking at the limit. -/
def harvestItems (env : Env) (opts : SmartOpts) (profile : CachedProfile) :
    List FeedItem → HarvestSt → HarvestSt
  | [], st => st
  | item :: rest, st =>
    if opts.limit ≤ st.posts.length then st
    else harvestItems env opts profile rest (harvestPost env opts profile st item)

/-- The harvest outer loop over the selected profiles; a thrown feed fetch
skips the profile. -/
def harvestProfiles (env : Env) (opts : SmartOpts) :
    List WProfile → HarvestSt → HarvestSt
  | [], st => st
  | wp :: rest, st =>
    if opts.limit ≤ st.posts.length then st
    else
      let st1 :=
        match env.getAuthorFeed wp.profile.did 15 with
        | none => st
        | some feed => harvestItems env opts wp.profile feed st
      harvestProfiles env opts rest st1

/-- The body of the backfill inner loop for one search hit: dedup,
language validation (no freshness or tag re-check), accept with
`discoveryMethod = hashtag:<tag>`, and insert a never-seen author as a new
cache profile. -/
def backfillPost (env : Env) (tag : String) (st : HarvestSt) (p : PostView) :
    HarvestSt :=
  match p.record with
  | none => st
  | some r =>
    match jsTruthyStr r.text with
    | none => st
    | some text =>
      let hash := textHash100 text
      if p.uri ∈ st.seenUris ∨ hash ∈ st.seenTexts then st
      else
        let sw := isSwahili env.detect text
        if ¬ sw.1 then st
        else
          let st1 : HarvestSt :=
            { st with
              seenUris := st.seenUris ++ [p.uri]
              seenTexts := st.seenTexts ++ [hash]
              posts := st.posts ++
                [{ uri := p.uri
                   cid := p.cid
                   text := text
                   createdAt := jsOrElse r.createdAt env.now
                   author := p.author
                   confidence := sw.2
                   discoveryMethod := "hashtag:" ++ tag
                   engagementScore := calculateEngagement p.likeCount
                     p.repostCount p.replyCount }] }
          match st1.cache.profiles.lookup p.author.did with
          | some _ => st1
          | none =>
            { st1 with
              cache := { st1.cache with
                profiles := st1.cache.profiles ++
                  [(p.author.did,
                    { did := p.author.did
                      handle := p.author.handle
                      displayName := p.author.displayName
                      discoveredAt := env.now
                      lastSeen := env.now
                      swahiliPostCount := 1
                      engagementScore := calculateEngagement p.likeCount
                        p.repostCount p.replyCount
                      discoveredFrom := "hashtag:" ++ tag
                      tags := extractHashtags text })]
                totalDiscoveries := st1.cache.totalDiscoveries + 1 }
              newDiscovered := st1.newDiscovered + 1 }

/-- Backfill inner loop over one tag's search hits, breaking at the limit. -/
def backfillPosts (env : Env) (opts : SmartOpts) (tag : String) :
    List PostView → HarvestSt → HarvestSt
  | [], st => st
  | p :: rest, st =>
    if opts.limit ≤ st.posts.length then st
    else backfillPosts env opts tag rest (backfillPost env tag st p)

/-- Backfill outer loop over the (up to 3) sampled tags. -/
def backfillTags (env : Env) (opts : SmartOpts) :
    List String → HarvestSt → HarvestSt
  | [], st => st
  | tag :: rest, st =>
    if opts.limit ≤ st.posts.length then st
    else
      let st1 :=
        match env.searchPosts ("#" ++ tag) 30 with
        | none => st
        | some posts => backfillPosts env opts tag posts st
      backfillTags env opts rest st1

/-- The default backfill tags used when the caller supplied none. -/
def defaultBackfillTags : List String :=
  ["kiswahili", "swahili", "habari", "tanzania", "kenya"]

/-- The orchestrator's return value. -/
structure SmartResult where
  posts : List DiscoveredPost
  totalProfiles : ℕ
  newProfilesDiscovered : ℕ
  profilesUsed : ℕ
deriving Repr, DecidableEq

/-- `smartDiscoverSwahiliPosts` from `crawler.ts`: load the cache, run the
exploration phase, build the weighted profile list, sample up to 20
profiles, harvest, backfill on shortfall, rank, save the cache, and return
the truncated post list with cache statistics. -/
def smartDiscoverSwahiliPosts (env : Env) (rng : Rng) (opts : SmartOpts)
    (fs : FileState) : SmartResult × FileState :=
  let cache0 := loadCache fs env.now
  let explored := explorePhase env rng opts cache0
  let cache := explored.1
  let profileList := (cache.profiles.map (·.2)).enum.map
    (fun ip => WProfile.mk ip.2 (profileWeight opts (rng.weights ip.1) ip.2))
  let selectedProfiles := weightedRandomSelect (·.weight) rng.select 0
    (shuffle rng.profShuffle 0 profileList) (min 20 profileList.length)
  let st0 : HarvestSt := ⟨[], [], [], cache, explored.2⟩
  let st1 := harvestProfiles env opts selectedProfiles st0
  let st2 :=
    if st1.posts.length < opts.limit then
      let hashtagsToSearch := if opts.tags ≠ [] then opts.tags else defaultBackfillTags
      backfillTags env opts ((shuffle rng.backfillShuffle 0 hashtagsToSearch).take 3) st1
    else st1
  let ranked := rng.rank st2.posts
  ({ posts := ranked.take opts.limit
     totalProfiles := st2.cache.profiles.length
     newProfilesDiscovered := st2.newDiscovered
     profilesUsed := selectedProfiles.length },
    saveCache st2.cache env.now)

/-- `m` is the provenance (`discoveredFrom`) of some profile in the given
cache contents. -/
def MethodOk (profiles : List (String × CachedProfile)) (m : String) : Prop :=
  m ∈ profiles.map (fun e => e.2.discoveredFrom)

/-! ## Concrete fixtures used by witnesses and counterexamples -/

/-- A cached profile fixture. -/
def profD : CachedProfile :=
  { did := "d", handle := "h", displayName := none, discoveredAt := "t0"
    lastSeen := "t1", swahiliPostCount := 2, engagementScore := 1
    discoveredFrom := "hashtag:kenya", tags := [] }

/-- A crawled candidate fixture with the same `did` as `profD` but
different mutable fields. -/
def candD : CachedProfile :=
  { did := "d", handle := "h", displayName := none, discoveredAt := "t2"
    lastSeen := "t2", swahiliPostCount := 1, engagementScore := 7
    discoveredFrom := "phrase:jambo", tags := [] }

/-- A one-profile cache fixture holding `profD`. -/
def cacheD : DiscoveryCache :=
  { version := "2.0", lastUpdated := "t", totalDiscoveries := 3
    profiles := [("d", profD)], seedProfiles := [], crawlHistory := [] }

/-- Draw stream exhibiting the under-selection of `weightedRandomSelect`:
the jitters drawn while summing `totalWeight` are large (0.4 each), the
selection draw is high (0.9 of the total), and the jitters re-drawn during
the scan are 0, so the scan never drives `random` to 0.  All draws lie in
`[0, 1)`. -/
def wrsCexDraws : ℕ → ℚ :=
  fun n => if n = 0 ∨ n = 1 then 4/5 else if n = 2 then 9/10 else 0

/-- A feed item whose record has text but no `createdAt`. -/
def itemNoDate : FeedItem :=
  ⟨{ uri := "u1", cid := "c1", author := ⟨"a1", "h1", none⟩
     record := some ⟨some "habari yako rafiki yangu", none⟩
     likeCount := 0, repostCount := 0, replyCount := 0 }⟩

/-- An empty harvest state over the one-profile cache `cacheD`. -/
def stD : HarvestSt := ⟨[], [], [], cacheD, 0⟩

/-- An environment whose network client throws on every call and whose
classifier throws on every text. -/
def failEnv : Env :=
  { getProfile := fun _ => none
    getFollowers := fun _ _ => none
    getFollows := fun _ _ => none
    getAuthorFeed := fun _ _ => none
    searchPosts := fun _ _ => none
    detect := fun _ => none
    now := "t"
    nowMs := 0
    dateOf := fun _ => none }

/-- Like `failEnv` but with a classifier that always answers Swahili with
probability 1, and clock reading `"NOW"`. -/
def swEnv : Env :=
  { failEnv with detect := fun _ => some [⟨"sw", 1⟩], now := "NOW" }

/-- A deterministic draw bundle: every numeric draw is 0 and the two
implementation-defined sorts are the identity permutation. -/
def rng0 : Rng :=
  { explore := 0
    seedSort := id
    seedShuffle := fun _ => 0
    crawlTags := fun _ _ => 0
    crawlPhrase := fun _ => 0
    weights := fun _ => 0
    profShuffle := fun _ => 0
    select := fun _ => 0
    backfillShuffle := fun _ => 0
    rank := id }

/-- A feed item whose Swahili text carries the hashtag `#kenya`. -/
def itemKenya : FeedItem :=
  ⟨{ uri := "u2", cid := "c2", author := ⟨"a1", "h1", none⟩
     record := some ⟨some "habari yako rafiki #kenya", none⟩
     likeCount := 1, repostCount := 0, replyCount := 0 }⟩

/-- Environment serving `itemKenya` from every author feed. -/
def harvEnv : Env :=
  { swEnv with getAuthorFeed := fun _ _ => some [itemKenya] }

/-- A search hit whose Swahili text carries no hashtag at all. -/
def noTagPost : PostView :=
  { uri := "u3", cid := "c3", author := ⟨"aX", "hX", none⟩
    record := some ⟨some "habari yako rafiki yangu mzuri sana", none⟩
    likeCount := 0, repostCount := 0, replyCount := 0 }

/-- Environment for the C4 counterexample: every crawl probe throws, and
searching `#kenya` returns the tagless Swahili post `noTagPost`. -/
def c4Env : Env :=
  { failEnv with
    detect := fun _ => some [⟨"sw", 1⟩]
    searchPosts := fun q _ => if q = "#kenya" then some [noTagPost] else some [] }

/-- Discovery options requesting only posts tagged `kenya`. -/
def c4Opts : SmartOpts := { tags := ["kenya"] }

/-- A 50-profile cache whose profiles all carry provenance
`follower_of:x`; the dids are `"d"`, `"dd"`, …. -/
def cache50 : DiscoveryCache :=
  { version := "2.0", lastUpdated := "t", totalDiscoveries := 0
    profiles := (List.range 50).map (fun i =>
      (String.mk (List.replicate (i + 1) 'd'),
       { did := String.mk (List.replicate (i + 1) 'd'), handle := "h"
         displayName := none, discoveredAt := "t", lastSeen := "t"
         swahiliPostCount := 0, engagementScore := 0
         discoveredFrom := "follower_of:x", tags := [] }))
    seedProfiles := [], crawlHistory := [] }

/-- Discovery options with exploration forced off. -/
def c5Opts : SmartOpts := { explorationRate := 0 }

/-- A Swahili search hit authored by the already-cached did `"d"`. -/
def swPostByCached : PostView :=
  { uri := "u4", cid := "c4", author := ⟨"d", "h", none⟩
    record := some ⟨some "habari yako rafiki yangu mzuri sana", none⟩
    likeCount := 0, repostCount := 0, replyCount := 0 }

/-- Environment for the C5 counterexample: author feeds throw (the harvest
yields nothing), and the backfill search for `#swahili` returns a post by
an author who is already cached. -/
def c5Env : Env :=
  { failEnv with
    detect := fun _ => some [⟨"sw", 1⟩]
    searchPosts := fun q _ => if q = "#swahili" then some [swPostByCached] else some [] }

/-- 60 distinct crawl handles (`"h"`, `"hh"`, …). -/
def sixtyHandles : List String :=
  (List.range 60).map (fun i => String.mk (List.replicate (i + 1) 'h'))

/-- The cache after 60 sequential crawls from the 60 distinct handles,
starting from the default (empty-history) cache; every `getProfile` throws,
so each crawl only appends to the history. -/
def crawl60 : DiscoveryCache :=
  sixtyHandles.foldl
    (fun c h => (crawlForNewProfiles failEnv c h 20 (fun _ => 0) 0).2)
    (defaultCache "t")

/-! ## Helper lemmas -/

theorem wrsCexDraws_range (n : ℕ) : 0 ≤ wrsCexDraws n ∧ wrsCexDraws n < 1 := by
  unfold wrsCexDraws
  split
  · norm_num
  · split <;> norm_num

theorem wrsScan_perm_some {α : Type*} (wt : α → ℚ) (g : ℕ → ℚ) :
    ∀ (l : List α) (k : ℕ) (r : ℚ) {x : α} {rest : List α} {k' : ℕ},
      wrsScan wt g k r l = (some x, rest, k') → (x :: rest).Perm l := by
  intro l
  induction l with
  | nil => intro k r x rest k' h; simp [wrsScan] at h
  | cons a as ih =>
    intro k r x rest k' h
    simp only [wrsScan] at h
    split at h
    · simp only [Prod.mk.injEq, Option.some.injEq] at h
      obtain ⟨hx, hrest, -⟩ := h
      subst hx
      subst hrest
      exact List.Perm.refl _
    · rcases hE : wrsScan wt g (k + 1) (r - (wt a + g k * (1/2))) as with ⟨sel, rest', k''⟩
      rw [hE] at h
      simp only [Prod.mk.injEq] at h
      obtain ⟨hsel, hrest, -⟩ := h
      cases sel with
      | none => exact absurd hsel (by simp)
      | some y =>
        have hy : y = x := by simpa using hsel
        subst hy
        subst hrest
        have hperm := ih (k + 1) (r - (wt a + g k * (1/2))) hE
        exact (List.Perm.swap a y rest').trans (List.Perm.cons a hperm)

theorem wrsScan_perm_none {α : Type*} (wt : α → ℚ) (g : ℕ → ℚ) :
    ∀ (l : List α) (k : ℕ) (r : ℚ) {rest : List α} {k' : ℕ},
      wrsScan wt g k r l = (none, rest, k') → rest = l := by
  intro l
  induction l with
  | nil =>
    intro k r rest k' h
    rw [wrsScan] at h
    exact (congrArg (fun p => p.2.1) h).symm
  | cons a as ih =>
    intro k r rest k' h
    simp only [wrsScan] at h
    split at h
    · exact absurd (congrArg (fun p => p.1) h) (by simp)
    · rcases hE : wrsScan wt g (k + 1) (r - (wt a + g k * (1/2))) as with ⟨sel, rest', k''⟩
      rw [hE] at h
      simp only [Prod.mk.injEq] at h
      obtain ⟨hsel, hrest, -⟩ := h
      cases sel with
      | some y => exact absurd hsel (by simp)
      | none =>
        subst hrest
        rw [ih (k + 1) (r - (wt a + g k * (1/2))) hE]

theorem wrsGo_subperm {α : Type*} (wt : α → ℚ) (g : ℕ → ℚ) :
    ∀ (count k : ℕ) (l : List α), (wrsGo wt g count k l).Subperm l := by
  intro count
  induction count with
  | zero => intro k l; rw [wrsGo]; exact List.nil_subperm
  | succ c ih =>
    intro k l
    match l with
    | [] => rw [wrsGo]
    | a :: as =>
      simp only [wrsGo]
      rcases hscan : wrsScan wt g (k + (a :: as).length + 1)
          (g (k + (a :: as).length) * wrsTotal wt g k (a :: as)) (a :: as)
        with ⟨sel, rest, k'⟩
      cases sel with
      | some x =>
        have hperm := wrsScan_perm_some wt g (a :: as) _ _ hscan
        have hsub : (x :: wrsGo wt g c k' rest).Subperm (x :: rest) :=
          (List.subperm_cons x).mpr (ih k' rest)
        exact hsub.trans hperm.subperm
      | none =>
        exact ih k' (a :: as)

theorem wrsGo_length {α : Type*} (wt : α → ℚ) (g : ℕ → ℚ) :
    ∀ (count k : ℕ) (l : List α), (wrsGo wt g count k l).length ≤ count := by
  intro count
  induction count with
  | zero => intro k l; rw [wrsGo]; simp
  | succ c ih =>
    intro k l
    match l with
    | [] => rw [wrsGo]; simp
    | a :: as =>
      simp only [wrsGo]
      rcases hscan : wrsScan wt g (k + (a :: as).length + 1)
          (g (k + (a :: as).length) * wrsTotal wt g k (a :: as)) (a :: as)
        with ⟨sel, rest, k'⟩
      cases sel with
      | some x =>
        exact Nat.succ_le_succ (ih k' rest)
      | none =>
        exact le_trans (ih k' (a :: as)) (Nat.le_succ c)

theorem length_dropWhile_le {α : Type*} (p : α → Bool) (l : List α) :
    (l.dropWhile p).length ≤ l.length := by
  induction l with
  | nil => simp
  | cons c cs ih =>
    by_cases h : p c
    · simp only [List.dropWhile, h, List.length_cons]
      omega
    · simp [List.dropWhile, h]

theorem char_toNat_ofNat_valid (m : ℕ) (h : m < 55296) : (Char.ofNat m).toNat = m := by
  rw [Char.ofNat, dif_pos (Or.inl h)]
  rfl

theorem toLower_toNat (c : Char) :
    c.toLower.toNat =
      if 65 ≤ c.toNat ∧ c.toNat ≤ 90 then c.toNat + 32 else c.toNat := by
  rw [Char.toLower]
  split
  · rename_i h
    rw [char_toNat_ofNat_valid _ (by omega)]
  · rfl

theorem jsTrim_length_le (s : String) : (jsTrim s).length ≤ s.length := by
  have h1 := length_dropWhile_le isJsWs s.toList
  have h2 := length_dropWhile_le isJsWs (s.toList.dropWhile isJsWs).reverse
  simp only [jsTrim, String.length_mk, List.length_reverse] at *
  calc ((s.toList.dropWhile isJsWs).reverse.dropWhile isJsWs).length
      ≤ (s.toList.dropWhile isJsWs).length := by simpa using h2
    _ ≤ s.toList.length := h1
    _ = s.length := rfl

theorem pushCrawlHistory_length_le (h : List String) (s : String)
    (hb : h.length ≤ 50) : (pushCrawlHistory h s).length ≤ 50 := by
  unfold pushCrawlHistory
  by_cases hc : 50 < (h ++ [s]).length
  · rw [if_pos hc]
    simp only [List.length_drop, List.length_append, List.length_singleton]
    omega
  · rw [if_neg hc]
    simp only [List.length_append, List.length_singleton] at *
    omega

theorem jsOrElse_of_truthy_none (o : Option String) (d : String)
    (h : jsTruthyStr o = none) : jsOrElse o d = d := by
  cases o with
  | none => rfl
  | some s =>
    by_cases hs : s = ""
    · simp [jsOrElse, hs]
    · simp [jsTruthyStr, hs] at h

theorem harvestPost_tag (env : Env) (opts : SmartOpts) (profile : CachedProfile)
    (st : HarvestSt) (item : FeedItem) (htags : opts.tags ≠ []) :
    ∀ p ∈ (harvestPost env opts profile st item).posts,
      p ∈ st.posts ∨ ((extractHashtags p.text).any fun t => t ∈ opts.tags) = true := by
  intro p hp
  cases hrec : item.post.record with
  | none =>
    simp only [harvestPost, hrec] at hp
    exact Or.inl hp
  | some r =>
    simp only [harvestPost, hrec] at hp
    cases htx : jsTruthyStr r.text with
    | none =>
      simp only [htx] at hp
      exact Or.inl hp
    | some text =>
      simp only [htx] at hp
      split at hp
      · exact Or.inl hp
      · split at hp
        · exact Or.inl hp
        · split at hp
          · exact Or.inl hp
          · split at hp
            · exact Or.inl hp
            · rename_i hcond
              rcases List.mem_append.1 hp with h | h
              · exact Or.inl h
              · right
                rw [List.mem_singleton.1 h]
                push_neg at hcond
                simpa using hcond htags

theorem harvestItems_tag (env : Env) (opts : SmartOpts) (profile : CachedProfile)
    (htags : opts.tags ≠ []) :
    ∀ (items : List FeedItem) (st : HarvestSt),
      ∀ p ∈ (harvestItems env opts profile items st).posts,
        p ∈ st.posts ∨ ((extractHashtags p.text).any fun t => t ∈ opts.tags) = true := by
  intro items
  induction items with
  | nil => intro st p hp; exact Or.inl hp
  | cons item rest ih =>
    intro st p hp
    rw [harvestItems] at hp
    split at hp
    · exact Or.inl hp
    · rcases ih (harvestPost env opts profile st item) p hp with h | h
      · exact harvestPost_tag env opts profile st item htags p h
      · exact Or.inr h

theorem harvestProfiles_tag (env : Env) (opts : SmartOpts) (htags : opts.tags ≠ []) :
    ∀ (sel : List WProfile) (st : HarvestSt),
      ∀ p ∈ (harvestProfiles env opts sel st).posts,
        p ∈ st.posts ∨ ((extractHashtags p.text).any fun t => t ∈ opts.tags) = true := by
  intro sel
  induction sel with
  | nil => intro st p hp; exact Or.inl hp
  | cons wp rest ih =>
    intro st p hp
    rw [harvestProfiles] at hp
    split at hp
    · exact Or.inl hp
    · cases hfeed : env.getAuthorFeed wp.profile.did 15 with
      | none =>
        rw [hfeed] at hp
        rcases ih st p hp with h | h
        · exact Or.inl h
        · exact Or.inr h
      | some feed =>
        rw [hfeed] at hp
        rcases ih (harvestItems env opts wp.profile feed st) p hp with h | h
        · exact harvestItems_tag env opts wp.profile htags feed st p h
        · exact Or.inr h

theorem listSwap_subset {α : Type*} (l : List α) (i j : ℕ) :
    ∀ x ∈ listSwap l i j, x ∈ l := by
  intro x hx
  unfold listSwap at hx
  cases hi : l.get? i with
  | none => rw [hi] at hx; exact hx
  | some a =>
    cases hj : l.get? j with
    | none => rw [hi, hj] at hx; exact hx
    | some b =>
      rw [hi, hj] at hx
      rcases List.mem_or_eq_of_mem_set hx with hx' | hx'
      · rcases List.mem_or_eq_of_mem_set hx' with h | h
        · exact h
        · exact h ▸ List.get?_mem hj
      · exact hx' ▸ List.get?_mem hi

theorem shuffleGo_subset {α : Type*} (g : ℕ → ℚ) :
    ∀ (i k : ℕ) (l : List α), ∀ x ∈ shuffleGo g k l i, x ∈ l := by
  intro i
  induction i with
  | zero => intro k l x hx; exact hx
  | succ j ih =>
    intro k l x hx
    rw [shuffleGo] at hx
    exact listSwap_subset l (j + 1) _ x (ih (k + 1) _ x hx)

theorem shuffle_subset {α : Type*} (g : ℕ → ℚ) (k : ℕ) (l : List α) :
    ∀ x ∈ shuffle g k l, x ∈ l :=
  fun x hx => shuffleGo_subset g (l.length - 1) k l x hx

theorem weightedRandomSelect_mem {α : Type*} (wt : α → ℚ) (g : ℕ → ℚ) (k : ℕ)
    (items : List α) (count : ℕ) :
    ∀ x ∈ weightedRandomSelect wt g k items count, x ∈ items := by
  intro x hx
  unfold weightedRandomSelect at hx
  split at hx
  · exact hx
  · exact (wrsGo_subperm wt g count k items).subset hx

theorem methodOk_of_value_mem (profiles : List (String × CachedProfile))
    (p : CachedProfile) (hp : p ∈ profiles.map (fun e => e.2)) :
    MethodOk profiles p.discoveredFrom := by
  unfold MethodOk
  have : profiles.map (fun e => e.2.discoveredFrom) =
      (profiles.map (fun e => e.2)).map (fun q => q.discoveredFrom) := by
    rw [List.map_map]
    rfl
  rw [this]
  exact List.mem_map.2 ⟨p, hp, rfl⟩

theorem updateStats_map_discoveredFrom (now did : String) :
    ∀ l : List (String × CachedProfile),
      (updateStats now did l).map (fun e => e.2.discoveredFrom) =
        l.map (fun e => e.2.discoveredFrom) := by
  intro l
  induction l with
  | nil => rfl
  | cons e rest ih =>
    rcases e with ⟨k, p⟩
    by_cases hk : k = did
    · simp [updateStats, hk]
    · simp [updateStats, hk, ih]

theorem harvestPost_cache_map (env : Env) (opts : SmartOpts)
    (profile : CachedProfile) (st : HarvestSt) (item : FeedItem) :
    (harvestPost env opts profile st item).cache.profiles.map
        (fun e => e.2.discoveredFrom) =
      st.cache.profiles.map (fun e => e.2.discoveredFrom) := by
  cases hrec : item.post.record with
  | none => simp only [harvestPost, hrec]
  | some r =>
    simp only [harvestPost, hrec]
    cases htx : jsTruthyStr r.text with
    | none => rfl
    | some text =>
      repeat' split
      all_goals first
        | rfl
        | exact updateStats_map_discoveredFrom env.now profile.did st.cache.profiles

theorem harvestPost_posts_method (env : Env) (opts : SmartOpts)
    (profile : CachedProfile) (st : HarvestSt) (item : FeedItem) :
    ∀ p ∈ (harvestPost env opts profile st item).posts,
      p ∈ st.posts ∨ p.discoveryMethod = profile.discoveredFrom := by
  intro p hp
  cases hrec : item.post.record with
  | none => simp only [harvestPost, hrec] at hp; exact Or.inl hp
  | some r =>
    simp only [harvestPost, hrec] at hp
    cases htx : jsTruthyStr r.text with
    | none => simp only [htx] at hp; exact Or.inl hp
    | some text =>
      simp only [htx] at hp
      split at hp
      · exact Or.inl hp
      · split at hp
        · exact Or.inl hp
        · split at hp
          · exact Or.inl hp
          · split at hp
            · exact Or.inl hp
            · rcases List.mem_append.1 hp with h | h
              · exact Or.inl h
              · right
                rw [List.mem_singleton.1 h]

theorem harvestItems_cache_map (env : Env) (opts : SmartOpts)
    (profile : CachedProfile) :
    ∀ (items : List FeedItem) (st : HarvestSt),
      (harvestItems env opts profile items st).cache.profiles.map
          (fun e => e.2.discoveredFrom) =
        st.cache.profiles.map (fun e => e.2.discoveredFrom) := by
  intro items
  induction items with
  | nil => intro st; rfl
  | cons item rest ih =>
    intro st
    rw [harvestItems]
    split
    · rfl
    · rw [ih, harvestPost_cache_map]

theorem harvestItems_posts_method (env : Env) (opts : SmartOpts)
    (profile : CachedProfile) :
    ∀ (items : List FeedItem) (st : HarvestSt),
      ∀ p ∈ (harvestItems env opts profile items st).posts,
        p ∈ st.posts ∨ p.discoveryMethod = profile.discoveredFrom := by
  intro items
  induction items with
  | nil => intro st p hp; exact Or.inl hp
  | cons item rest ih =>
    intro st p hp
    rw [harvestItems] at hp
    split at hp
    · exact Or.inl hp
    · rcases ih (harvestPost env opts profile st item) p hp with h | h
      · exact harvestPost_posts_method env opts profile st item p h
      · exact Or.inr h

theorem harvestProfiles_cache_map (env : Env) (opts : SmartOpts) :
    ∀ (sel : List WProfile) (st : HarvestSt),
      (harvestProfiles env opts sel st).cache.profiles.map
          (fun e => e.2.discoveredFrom) =
        st.cache.profiles.map (fun e => e.2.discoveredFrom) := by
  intro sel
  induction sel with
  | nil => intro st; rfl
  | cons wp rest ih =>
    intro st
    rw [harvestProfiles]
    split
    · rfl
    · cases hfeed : env.getAuthorFeed wp.profile.did 15 with
      | none => rw [ih]
      | some feed => rw [ih, harvestItems_cache_map]

theorem harvestProfiles_posts_method (env : Env) (opts : SmartOpts) :
    ∀ (sel : List WProfile) (st : HarvestSt),
      ∀ p ∈ (harvestProfiles env opts sel st).posts,
        p ∈ st.posts ∨ ∃ wp ∈ sel, p.discoveryMethod = wp.profile.discoveredFrom := by
  intro sel
  induction sel with
  | nil => intro st p hp; exact Or.inl hp
  | cons wp rest ih =>
    intro st p hp
    rw [harvestProfiles] at hp
    split at hp
    · exact Or.inl hp
    · cases hfeed : env.getAuthorFeed wp.profile.did 15 with
      | none =>
        rw [hfeed] at hp
        rcases ih st p hp with h | ⟨wq, hwq, hm⟩
        · exact Or.inl h
        · exact Or.inr ⟨wq, List.mem_cons_of_mem wp hwq, hm⟩
      | some feed =>
        rw [hfeed] at hp
        rcases ih (harvestItems env opts wp.profile feed st) p hp with h | ⟨wq, hwq, hm⟩
        · rcases harvestItems_posts_method env opts wp.profile feed st p h with h1 | h1
          · exact Or.inl h1
          · exact Or.inr ⟨wp, List.mem_cons_self wp rest, h1⟩
        · exact Or.inr ⟨wq, List.mem_cons_of_mem wp hwq, hm⟩

theorem backfillPost_cache_mono (env : Env) (tag : String) (st : HarvestSt)
    (p : PostView) (m : String) (h : MethodOk st.cache.profiles m) :
    MethodOk (backfillPost env tag st p).cache.profiles m := by
  unfold MethodOk at h ⊢
  cases hrec : p.record with
  | none => simp only [backfillPost, hrec]; exact h
  | some r =>
    simp only [backfillPost, hrec]
    repeat' split
    all_goals first
      | exact h
      | (simp only [List.map_append, List.mem_append]; exact Or.inl h)

theorem backfillPost_posts (env : Env) (tag : String) (st : HarvestSt)
    (p : PostView) :
    ∀ q ∈ (backfillPost env tag st p).posts,
      q ∈ st.posts ∨ q.discoveryMethod = "hashtag:" ++ tag := by
  intro q hq
  cases hrec : p.record with
  | none => simp only [backfillPost, hrec] at hq; exact Or.inl hq
  | some r =>
    simp only [backfillPost, hrec] at hq
    cases htx : jsTruthyStr r.text with
    | none => simp only [htx] at hq; exact Or.inl hq
    | some text =>
      simp only [htx] at hq
      split at hq
      · exact Or.inl hq
      · split at hq
        · exact Or.inl hq
        · have hq1 : q ∈ st.posts ++
              [{ uri := p.uri, cid := p.cid, text := text
                 createdAt := jsOrElse r.createdAt env.now
                 author := p.author
                 confidence := (isSwahili env.detect text).2
                 discoveryMethod := "hashtag:" ++ tag
                 engagementScore := calculateEngagement p.likeCount
                   p.repostCount p.replyCount }] := by
            rcases hlk : (st.cache.profiles.lookup p.author.did) with - | v <;>
              simp only [hlk] at hq <;> exact hq
          rcases List.mem_append.1 hq1 with h | h
          · exact Or.inl h
          · right
            rw [List.mem_singleton.1 h]

theorem backfillPosts_cache_mono (env : Env) (opts : SmartOpts) (tag : String) :
    ∀ (posts : List PostView) (st : HarvestSt) (m : String),
      MethodOk st.cache.profiles m →
      MethodOk (backfillPosts env opts tag posts st).cache.profiles m := by
  intro posts
  induction posts with
  | nil => intro st m h; exact h
  | cons p rest ih =>
    intro st m h
    rw [backfillPosts]
    split
    · exact h
    · exact ih (backfillPost env tag st p) m (backfillPost_cache_mono env tag st p m h)

theorem backfillPosts_posts (env : Env) (opts : SmartOpts) (tag : String) :
    ∀ (posts : List PostView) (st : HarvestSt),
      ∀ q ∈ (backfillPosts env opts tag posts st).posts,
        q ∈ st.posts ∨ q.discoveryMethod = "hashtag:" ++ tag := by
  intro posts
  induction posts with
  | nil => intro st q hq; exact Or.inl hq
  | cons p rest ih =>
    intro st q hq
    rw [backfillPosts] at hq
    split at hq
    · exact Or.inl hq
    · rcases ih (backfillPost env tag st p) q hq with h | h
      · exact backfillPost_posts env tag st p q h
      · exact Or.inr h

theorem backfillTags_cache_mono (env : Env) (opts : SmartOpts) :
    ∀ (tagsL : List String) (st : HarvestSt) (m : String),
      MethodOk st.cache.profiles m →
      MethodOk (backfillTags env opts tagsL st).cache.profiles m := by
  intro tagsL
  induction tagsL with
  | nil => intro st m h; exact h
  | cons tag rest ih =>
    intro st m h
    rw [backfillTags]
    split
    · exact h
    · cases hs : env.searchPosts ("#" ++ tag) 30 with
      | none => exact ih st m h
      | some posts =>
        exact ih (backfillPosts env opts tag posts st) m
          (backfillPosts_cache_mono env opts tag posts st m h)

theorem backfillTags_posts (env : Env) (opts : SmartOpts) :
    ∀ (tagsL : List String) (st : HarvestSt),
      ∀ q ∈ (backfillTags env opts tagsL st).posts,
        q ∈ st.posts ∨ ∃ t, q.discoveryMethod = "hashtag:" ++ t := by
  intro tagsL
  induction tagsL with
  | nil => intro st q hq; exact Or.inl hq
  | cons tag rest ih =>
    intro st q hq
    rw [backfillTags] at hq
    split at hq
    · exact Or.inl hq
    · cases hs : env.searchPosts ("#" ++ tag) 30 with
      | none =>
        rw [hs] at hq
        exact ih st q hq
      | some posts =>
        rw [hs] at hq
        rcases ih (backfillPosts env opts tag posts st) q hq with h | h
        · rcases backfillPosts_posts env opts tag posts st q h with h1 | h1
          · exact Or.inl h1
          · exact Or.inr ⟨tag, h1⟩
        · exact Or.inr h

theorem explorePhase_exploit (env : Env) (rng : Rng) (opts : SmartOpts)
    (cache : DiscoveryCache) (hrate : opts.explorationRate = 0)
    (hdraw : 0 ≤ rng.explore) (hsize : 50 ≤ cache.profiles.length) :
    explorePhase env rng opts cache = (cache, 0) := by
  unfold explorePhase
  have h1 : ¬(rng.explore < opts.explorationRate ∨ cache.profiles.length < 15) := by
    rw [hrate]
    push_neg
    exact ⟨hdraw, by omega⟩
  rw [if_neg h1, if_neg (by omega : ¬cache.profiles.length < 50)]

theorem pipeline_posts_methods (env : Env) (opts : SmartOpts)
    (cache : DiscoveryCache) (n : ℕ) (sel : List WProfile) (tagsL : List String)
    (hsel : ∀ wp ∈ sel, MethodOk cache.profiles wp.profile.discoveredFrom) :
    ∀ p ∈ (if (harvestProfiles env opts sel ⟨[], [], [], cache, n⟩).posts.length < opts.limit
        then backfillTags env opts tagsL (harvestProfiles env opts sel ⟨[], [], [], cache, n⟩)
        else harvestProfiles env opts sel ⟨[], [], [], cache, n⟩).posts,
      MethodOk (if (harvestProfiles env opts sel ⟨[], [], [], cache, n⟩).posts.length < opts.limit
          then backfillTags env opts tagsL (harvestProfiles env opts sel ⟨[], [], [], cache, n⟩)
          else harvestProfiles env opts sel ⟨[], [], [], cache, n⟩).cache.profiles
        p.discoveryMethod ∨
      ∃ t, p.discoveryMethod = "hashtag:" ++ t := by
  have hharv : ∀ q ∈ (harvestProfiles env opts sel ⟨[], [], [], cache, n⟩).posts,
      MethodOk (harvestProfiles env opts sel ⟨[], [], [], cache, n⟩).cache.profiles
        q.discoveryMethod := by
    intro q hq
    rcases harvestProfiles_posts_method env opts sel ⟨[], [], [], cache, n⟩ q hq with h | ⟨wp, hwp, hm⟩
    · simp at h
    · have hmok : MethodOk cache.profiles q.discoveryMethod := hm ▸ hsel wp hwp
      unfold MethodOk at hmok ⊢
      rw [harvestProfiles_cache_map env opts sel ⟨[], [], [], cache, n⟩]
      exact hmok
  intro p hp
  split at hp
  · rw [if_pos (by assumption)]
    rcases backfillTags_posts env opts tagsL
        (harvestProfiles env opts sel ⟨[], [], [], cache, n⟩) p hp with h | h
    · exact Or.inl (backfillTags_cache_mono env opts tagsL
        (harvestProfiles env opts sel ⟨[], [], [], cache, n⟩) p.discoveryMethod (hharv p h))
    · exact Or.inr h
  · rw [if_neg (by assumption)]
    exact Or.inl (hharv p hp)

/-- C5 (amended): with `explorationRate = 0` and at least 50 cached
profiles, no crawl runs — for every environment and draw the exploration
phase returns the loaded cache unchanged with zero discoveries — and every
returned post's `discoveryMethod` either equals the `discoveredFrom` of
some profile in the saved end-of-call cache (all harvest-phase posts) or is
of the shortfall-backfill form `hashtag:<tag>`, which need not match any
cached profile when the hit's author was already cached (see the
counterexample). -/
theorem smartDiscover_exploit_only (env : Env) (rng : Rng) (opts : SmartOpts)
    (fs : FileState) (hrate : opts.explorationRate = 0) (hdraw : 0 ≤ rng.explore)
    (hsize : 50 ≤ (loadCache fs env.now).profiles.length)
    (hrank : ∀ l, (rng.rank l).Perm l) :
    (∀ env' : Env,
      explorePhase env' rng opts (loadCache fs env.now) = (loadCache fs env.now, 0)) ∧
    ∃ c, (smartDiscoverSwahiliPosts env rng opts fs).2 = FileState.stored c ∧
      ∀ p ∈ (smartDiscoverSwahiliPosts env rng opts fs).1.posts,
        MethodOk c.profiles p.discoveryMethod ∨
        ∃ t, p.discoveryMethod = "hashtag:" ++ t := by
  have hexp : ∀ env' : Env,
      explorePhase env' rng opts (loadCache fs env.now) = (loadCache fs env.now, 0) :=
    fun env' => explorePhase_exploit env' rng opts _ hrate hdraw hsize
  refine ⟨hexp, ?_⟩
  simp only [smartDiscoverSwahiliPosts, hexp env, saveCache]
  refine ⟨_, rfl, ?_⟩
  intro p hp
  have hp1 : p ∈ (rng.rank _).take opts.limit := hp
  have hp2 := (hrank _).mem_iff.1 (List.take_subset _ _ hp1)
  refine pipeline_posts_methods env opts (loadCache fs env.now) 0 _ _ ?_ p hp2
  intro wp hwp
  have h1 := weightedRandomSelect_mem _ rng.select 0 _ _ wp hwp
  have h2 := shuffle_subset rng.profShuffle 0 _ wp h1
  obtain ⟨ip, hip, hwpEq⟩ := List.mem_map.1 h2
  have hval : ip.2 ∈ (loadCache fs env.now).profiles.map (fun e => e.2) := by
    have : ip.2 ∈ ((loadCache fs env.now).profiles.map (fun e => e.2)).enum.map Prod.snd :=
      List.mem_map.2 ⟨ip, hip, rfl⟩
    rwa [List.enum_map_snd] at this
  have := methodOk_of_value_mem (loadCache fs env.now).profiles ip.2 hval
  rw [← hwpEq]
  exact this

/-- Witness for C5's amended theorem at the 50-profile cache `cache50`
with `explorationRate = 0`. -/
theorem smartDiscover_exploit_only_witness :
    c5Opts.explorationRate = 0 ∧ 0 ≤ rng0.explore ∧
    50 ≤ (loadCache (FileState.stored cache50) c5Env.now).profiles.length ∧
    ((∀ env' : Env, explorePhase env' rng0 c5Opts
        (loadCache (FileState.stored cache50) c5Env.now) =
        (loadCache (FileState.stored cache50) c5Env.now, 0)) ∧
      ∃ c, (smartDiscoverSwahiliPosts c5Env rng0 c5Opts (FileState.stored cache50)).2 =
          FileState.stored c ∧
        ∀ p ∈ (smartDiscoverSwahiliPosts c5Env rng0 c5Opts (FileState.stored cache50)).1.posts,
          MethodOk c.profiles p.discoveryMethod ∨
          ∃ t, p.discoveryMethod = "hashtag:" ++ t) :=
  ⟨rfl, le_refl 0, by decide,
   smartDiscover_exploit_only c5Env rng0 c5Opts (FileState.stored cache50)
     rfl (le_refl 0) (by decide) (fun l => List.Perm.refl l)⟩

set_option maxRecDepth 8000 in
/-- Counterexample for C5 as stated: with `cache50` (50 profiles, all
provenance `follower_of:x`) and `explorationRate = 0`, the harvest finds
nothing, the backfill returns a Swahili post by an already-cached author,
and the call returns it with `discoveryMethod = "hashtag:swahili"` — which
matches no cached profile's `discoveredFrom` in the end-of-call cache. -/
theorem smartDiscover_method_counterexample :
    c5Opts.explorationRate = 0 ∧
    50 ≤ (loadCache (FileState.stored cache50) c5Env.now).profiles.length ∧
    ((smartDiscoverSwahiliPosts c5Env rng0 c5Opts (FileState.stored cache50)).1.posts.map
      (fun p => p.discoveryMethod)) = ["hashtag:swahili"] ∧
    (match (smartDiscoverSwahiliPosts c5Env rng0 c5Opts (FileState.stored cache50)).2 with
      | FileState.stored c => c.profiles.all (fun e => e.2.discoveredFrom == "follower_of:x")
      | FileState.absent => false
      | FileState.corrupt => false) = true := by
  refine ⟨rfl, by decide, ?_, ?_⟩
  · with_unfolding_all decide
  · with_unfolding_all decide

/-- C6: for every text with fewer than 10 characters, `isSwahili` returns
`(false, 0)` regardless of the classifier (so without depending on it), and
whenever the classifier throws, `isSwahili` returns `isMatch = false`
instead of propagating the error. -/
theorem isSwahili_short_circuit_and_catch (detect : Detect) (text : String) :
    (text.length < 10 → isSwahili detect text = (false, 0)) ∧
    (detect text = none → (isSwahili detect text).1 = false) := by
  constructor
  · intro h
    have : (jsTrim text).length < 10 := lt_of_le_of_lt (jsTrim_length_le text) h
    simp [isSwahili, this]
  · intro h
    by_cases hc : text = "" ∨ (jsTrim text).length < 10 <;> simp [isSwahili, hc, h]

/-- Witness for C6 at the 6-character text `"habari"` and a classifier that
always throws. -/
theorem isSwahili_short_circuit_and_catch_witness :
    isSwahili (fun _ => none) "habari" = (false, 0) ∧
    (isSwahili (fun _ => none) "habari").1 = false :=
  ⟨(isSwahili_short_circuit_and_catch (fun _ => none) "habari").1 (by decide),
   (isSwahili_short_circuit_and_catch (fun _ => none) "habari").2 rfl⟩

/-- C1 (amended): the weighted sampler draws without replacement — its
output is a sub-permutation of the input — and returns AT MOST
`min(count, N)` candidates (exactly all `N` when `N ≤ count`), but a pass
whose re-drawn scan jitters undershoot the jitters summed into
`totalWeight` can select nothing, so fewer than `count` selections are
possible (see the counterexample). -/
theorem weightedRandomSelect_subperm_length {α : Type*} (wt : α → ℚ)
    (g : ℕ → ℚ) (k : ℕ) (items : List α) (count : ℕ) :
    (weightedRandomSelect wt g k items count).Subperm items ∧
    (weightedRandomSelect wt g k items count).length ≤ min count items.length ∧
    (items.length ≤ count → weightedRandomSelect wt g k items count = items) := by
  unfold weightedRandomSelect
  by_cases h : items.length ≤ count
  · rw [if_pos h]
    exact ⟨List.Subperm.refl items, by omega, fun _ => rfl⟩
  · rw [if_neg h]
    have hsub := wrsGo_subperm wt g count k items
    exact ⟨hsub, le_min (wrsGo_length wt g count k items) hsub.length_le,
      fun hc => absurd hc h⟩

/-- Witness for C1's amended theorem: two items, target 3: all items are
returned. -/
theorem weightedRandomSelect_subperm_length_witness :
    (weightedRandomSelect (id : ℚ → ℚ) wrsCexDraws 0 [0, 1] 3).Subperm [0, 1] ∧
    (weightedRandomSelect (id : ℚ → ℚ) wrsCexDraws 0 [0, 1] 3).length ≤
      min 3 ([0, 1] : List ℚ).length ∧
    weightedRandomSelect (id : ℚ → ℚ) wrsCexDraws 0 [0, 1] 3 = [0, 1] := by
  have h := weightedRandomSelect_subperm_length (id : ℚ → ℚ) wrsCexDraws 0 [0, 1] 3
  exact ⟨h.1, h.2.1, h.2.2 (by decide)⟩

/-- Counterexample for C1 as stated: with two weight-0 items, target count
1 and the draw sequence `wrsCexDraws` (all draws in `[0, 1)`), the sampler
returns 0 candidates, not `min(1, 2) = 1`. -/
theorem weightedRandomSelect_miss_counterexample :
    weightedRandomSelect (id : ℚ → ℚ) wrsCexDraws 0 [0, 0] 1 = [] ∧
    ¬((weightedRandomSelect (id : ℚ → ℚ) wrsCexDraws 0 [0, 0] 1).length =
        min 1 ([0, 0] : List ℚ).length) := by
  constructor
  · with_unfolding_all decide
  · with_unfolding_all decide

/-- C2 (amended): the crawl history is batch-trimmed, not capped at 25: a
completed crawl leaves at most 50 entries (the history is trimmed to the
most recent 25 only when appending pushes it past 50), so starting from an
empty history, 60 sequential crawls leave 34 entries — more than 25 (see
the counterexample). -/
theorem crawlHistory_le_50 (env : Env) (cache : DiscoveryCache)
    (startHandle : String) (maxProfiles : ℕ) (gTags : ℕ → ℚ) (gPhrase : ℚ)
    (h : cache.crawlHistory.length ≤ 50) :
    (crawlForNewProfiles env cache startHandle maxProfiles
        gTags gPhrase).2.crawlHistory.length ≤ 50 := by
  unfold crawlForNewProfiles
  rcases hgp : env.getProfile startHandle with - | od
  · exact pushCrawlHistory_length_le _ _ h
  · rcases od with - | did
    · exact h
    · exact pushCrawlHistory_length_le _ _ h

/-- Witness for C2's amended theorem: one crawl from the default cache. -/
theorem crawlHistory_le_50_witness :
    (defaultCache "t").crawlHistory.length ≤ 50 ∧
    (crawlForNewProfiles failEnv (defaultCache "t") "h" 20
        (fun _ => 0) 0).2.crawlHistory.length ≤ 50 :=
  ⟨by decide,
   crawlHistory_le_50 failEnv (defaultCache "t") "h" 20 (fun _ => 0) 0 (by decide)⟩

set_option maxRecDepth 8000 in
/-- Counterexample for C2 as stated: 60 sequential crawls from 60 distinct
handles, starting from the empty default history, leave 34 entries in
`crawlHistory` — the claimed bound of 25 is violated (the history may also
exceed 25 after any single crawl, since trimming fires only past 50). -/
theorem crawlHistory_60_counterexample :
    sixtyHandles.Nodup ∧
    (defaultCache "t").crawlHistory = [] ∧
    crawl60.crawlHistory.length = 34 ∧
    ¬(crawl60.crawlHistory.length ≤ 25) := by
  refine ⟨by decide, rfl, ?_, ?_⟩
  · decide
  · decide

/-- C10: in the harvest accept step, a post whose record has no truthy
`createdAt` is never excluded by the 7-day freshness filter (the step
behaves exactly as with `freshness = "any"`), and when it is accepted the
returned post's `createdAt` is the harvest-time clock `env.now`. -/
theorem harvestPost_missing_createdAt (env : Env) (opts : SmartOpts)
    (profile : CachedProfile) (st : HarvestSt) (item : FeedItem)
    (r : PostRecord) (hrec : item.post.record = some r)
    (hcd : jsTruthyStr r.createdAt = none) :
    harvestPost env opts profile st item =
      harvestPost env { opts with freshness := Freshness.any } profile st item ∧
    ∀ p ∈ (harvestPost env opts profile st item).posts,
      p ∈ st.posts ∨ p.createdAt = env.now := by
  obtain ⟨lim, mcd, er, tg, fr⟩ := opts
  have hbody : ∀ f₁ f₂ : Freshness,
      harvestPost env ⟨lim, mcd, er, tg, f₁⟩ profile st item =
        harvestPost env ⟨lim, mcd, er, tg, f₂⟩ profile st item := by
    intro f₁ f₂
    unfold harvestPost
    rw [hrec]
    cases f₁ <;> cases f₂ <;> simp [hcd]
  refine ⟨hbody fr Freshness.any, ?_⟩
  intro p hp
  rw [hbody fr Freshness.any] at hp
  simp only [harvestPost, hrec] at hp
  cases htx : jsTruthyStr r.text with
  | none =>
    simp only [htx] at hp
    exact Or.inl hp
  | some text =>
    simp only [htx] at hp
    split at hp
    · exact Or.inl hp
    · split at hp
      · exact Or.inl hp
      · split at hp
        · exact Or.inl hp
        · split at hp
          · exact Or.inl hp
          · rcases List.mem_append.1 hp with h | h
            · exact Or.inl h
            · right
              rw [List.mem_singleton.1 h]
              exact jsOrElse_of_truthy_none r.createdAt env.now hcd

/-- Witness for C10: the concrete feed item `itemNoDate` (no `createdAt`)
under a Swahili-accepting classifier, a `recent` freshness request, and the
empty harvest state `stD`. -/
theorem harvestPost_missing_createdAt_witness :
    itemNoDate.post.record = some ⟨some "habari yako rafiki yangu", none⟩ ∧
    (harvestPost swEnv { freshness := Freshness.recent } profD stD itemNoDate =
      harvestPost swEnv { freshness := Freshness.any } profD stD itemNoDate ∧
    ∀ p ∈ (harvestPost swEnv { freshness := Freshness.recent } profD stD itemNoDate).posts,
      p ∈ stD.posts ∨ p.createdAt = swEnv.now) :=
  ⟨rfl, harvestPost_missing_createdAt swEnv { freshness := Freshness.recent }
    profD stD itemNoDate ⟨some "habari yako rafiki yangu", none⟩ rfl rfl⟩

/-- C4 (amended): with a non-empty tag filter, every post produced by the
per-profile HARVEST phase (which starts from the pipeline's empty post
accumulator) has at least one filter tag among the hashtags extracted from
its text.  The shortfall-backfill phase searches the filter tags directly
but does not re-check the extracted hashtags of the posts it accepts, so
the property does not extend to it (see the counterexample). -/
theorem harvest_phase_tag_filter (env : Env) (opts : SmartOpts)
    (htags : opts.tags ≠ []) (sel : List WProfile) (cache : DiscoveryCache)
    (n : ℕ) :
    ∀ p ∈ (harvestProfiles env opts sel ⟨[], [], [], cache, n⟩).posts,
      ((extractHashtags p.text).any fun t => t ∈ opts.tags) = true := by
  intro p hp
  rcases harvestProfiles_tag env opts htags sel ⟨[], [], [], cache, n⟩ p hp with h | h
  · simp at h
  · exact h

/-- Witness for C4's amended theorem: harvesting the `#kenya`-tagged feed
item through `harvEnv` with filter `["kenya"]` accepts one post, and the
theorem applies to it. -/
theorem harvest_phase_tag_filter_witness :
    (harvestProfiles harvEnv c4Opts [⟨profD, 0⟩] ⟨[], [], [], cacheD, 0⟩).posts.length = 1 ∧
    ∀ p ∈ (harvestProfiles harvEnv c4Opts [⟨profD, 0⟩] ⟨[], [], [], cacheD, 0⟩).posts,
      ((extractHashtags p.text).any fun t => t ∈ c4Opts.tags) = true :=
  ⟨by with_unfolding_all decide,
   harvest_phase_tag_filter harvEnv c4Opts (by decide) [⟨profD, 0⟩] cacheD 0⟩

/-- Counterexample for C4 as stated: a discovery call with
`tags = ["kenya"]` whose harvest finds nothing falls back to the backfill
search; the search returns a validated Swahili post containing no hashtag
at all, and the call returns it — its extracted hashtags do not include
`"kenya"`. -/
theorem smartDiscover_tag_filter_counterexample :
    ((smartDiscoverSwahiliPosts c4Env rng0 c4Opts FileState.absent).1.posts.map
      (fun p => p.discoveryMethod)) = ["hashtag:kenya"] ∧
    ((smartDiscoverSwahiliPosts c4Env rng0 c4Opts FileState.absent).1.posts.map
      (fun p => ((extractHashtags p.text).any fun t => t ∈ c4Opts.tags))) = [false] := by
  constructor
  · with_unfolding_all decide
  · with_unfolding_all decide

/-- C9: when the persisted blob is absent or fails to parse, `loadCache`
does not fail and returns the freshly initialized default cache: empty
profiles, the fixed bootstrap seed handles, empty crawl history, zero
total discoveries. -/
theorem loadCache_fail_open (now : String) :
    loadCache FileState.absent now = defaultCache now ∧
    loadCache FileState.corrupt now = defaultCache now ∧
    (defaultCache now).profiles = [] ∧
    (defaultCache now).seedProfiles =
      ["changetanzania.bsky.social", "tanzania.bsky.social", "kenya.bsky.social"] ∧
    (defaultCache now).crawlHistory = [] ∧
    (defaultCache now).totalDiscoveries = 0 :=
  ⟨rfl, rfl, rfl, rfl, rfl, rfl⟩

/-- C8: `save(load())` followed by `load()` yields a cache structurally
equal to the first loaded cache in every field except `lastUpdated`
(`profiles`, `seedProfiles`, `crawlHistory`, `totalDiscoveries`, `version`
all preserved exactly), for every persisted state and timestamps. -/
theorem saveCache_loadCache_roundtrip (fs : FileState) (n1 n2 n3 : String) :
    (loadCache (saveCache (loadCache fs n1) n2) n3).profiles =
      (loadCache fs n1).profiles ∧
    (loadCache (saveCache (loadCache fs n1) n2) n3).seedProfiles =
      (loadCache fs n1).seedProfiles ∧
    (loadCache (saveCache (loadCache fs n1) n2) n3).crawlHistory =
      (loadCache fs n1).crawlHistory ∧
    (loadCache (saveCache (loadCache fs n1) n2) n3).totalDiscoveries =
      (loadCache fs n1).totalDiscoveries ∧
    (loadCache (saveCache (loadCache fs n1) n2) n3).version =
      (loadCache fs n1).version := by
  cases fs with
  | absent => simp [loadCache, saveCache, defaultCache]
  | corrupt => simp [loadCache, saveCache, defaultCache]
  | stored c => by_cases h : c.version = "" <;> simp [loadCache, saveCache, h]

/-- C3: merging a crawled candidate whose `did` already exists in the cache
leaves the cached profile's `discoveredAt`, `discoveredFrom` and
`engagementScore` unchanged, never decreases its `swahiliPostCount`, leaves
every other entry's lookup unchanged, and increments neither
`totalDiscoveries` nor the call's new-profile counter. -/
theorem mergeCandidate_existing (cache : DiscoveryCache) (n : ℕ)
    (p q : CachedProfile) (h : cache.profiles.lookup p.did = some q) :
    (∃ q', (mergeCandidate cache n p).1.profiles.lookup p.did = some q' ∧
      q'.discoveredAt = q.discoveredAt ∧ q'.discoveredFrom = q.discoveredFrom ∧
      q'.engagementScore = q.engagementScore ∧
      q.swahiliPostCount ≤ q'.swahiliPostCount) ∧
    (∀ d, (mergeCandidate cache n p).1.profiles.lookup d = cache.profiles.lookup d) ∧
    (mergeCandidate cache n p).1.totalDiscoveries = cache.totalDiscoveries ∧
    (mergeCandidate cache n p).2 = n := by
  refine ⟨⟨q, ?_, rfl, rfl, rfl, le_refl _⟩, fun d => ?_, ?_, ?_⟩ <;>
    simp [mergeCandidate, h]

theorem scanGo_shape (cs : List Char) :
    ∀ (buf : Option (List Char)),
      (∀ b, buf = some b → ∀ c ∈ b, isWordChar c) →
      ∀ s ∈ scanGo buf cs,
        ∃ run, run ≠ [] ∧ (∀ c ∈ run, isWordChar c) ∧ s = tagOf run := by
  induction cs with
  | nil =>
    intro buf hbuf s hs
    match buf with
    | none => simp [scanGo] at hs
    | some b =>
      by_cases hb : b.isEmpty
      · simp [scanGo, hb] at hs
      · simp [scanGo, hb] at hs
        exact ⟨b, by simpa using hb, hbuf b rfl, hs⟩
  | cons c rest ih =>
    intro buf hbuf s hs
    match buf with
    | none =>
      by_cases hc : c = '#'
      · simp only [scanGo, hc, if_pos] at hs
        exact ih (some []) (by simp) s hs
      · simp only [scanGo, hc, if_neg, not_false_iff] at hs
        exact ih none (by simp) s hs
    | some b =>
      by_cases hw : isWordChar c
      · simp only [scanGo, hw, if_pos] at hs
        refine ih (some (b ++ [c])) ?_ s hs
        intro b' hb' d hd
        cases hb'
        rcases List.mem_append.1 hd with h | h
        · exact hbuf b rfl d h
        · simpa using (List.mem_singleton.1 h) ▸ hw
      · have htail : ∀ s ∈ (if c = '#' then scanGo (some []) rest else scanGo none rest),
            ∃ run, run ≠ [] ∧ (∀ c ∈ run, isWordChar c) ∧ s = tagOf run := by
          by_cases hc : c = '#'
          · simpa [hc] using ih (some []) (by simp)
          · simpa [hc] using ih none (by simp)
        by_cases hb : b.isEmpty
        · simp only [scanGo, hw, Bool.false_eq_true, if_neg, not_false_iff, hb, if_pos] at hs
          exact htail s hs
        · simp only [scanGo, hw, Bool.false_eq_true, if_neg, not_false_iff, hb,
            List.mem_cons] at hs
          rcases hs with hs | hs
          · exact ⟨b, by simpa using hb, hbuf b rfl, hs⟩
          · exact htail s hs

/-- C7 (amended): every element of `extractHashtags text` is a normalized
tag — the lowercasing of a nonempty word-character run with the leading
`#` stripped, hence nonempty, containing no `#` (code 35) and no ASCII
uppercase letter (codes 65–90) — but the returned collection is NOT
deduplicated; a tag can appear more than once (see the counterexample). -/
theorem extractHashtags_normalized (text s : String)
    (hs : s ∈ extractHashtags text) :
    (∃ run, run ≠ [] ∧ (∀ c ∈ run, isWordChar c) ∧ s = tagOf run) ∧
    s ≠ "" ∧ ∀ c ∈ s.data, c.toNat ≠ 35 ∧ ¬(65 ≤ c.toNat ∧ c.toNat ≤ 90) := by
  obtain ⟨run, hne, hw, hEq⟩ := scanGo_shape text.toList none (by simp) s hs
  refine ⟨⟨run, hne, hw, hEq⟩, ?_, ?_⟩
  · intro h
    apply hne
    have : (tagOf run).data = [] := by rw [← hEq, h]
    simpa [tagOf] using this
  · intro c hc
    have hdata : s.data = run.map Char.toLower := by rw [hEq]; rfl
    rw [hdata] at hc
    obtain ⟨d, hd, hdc⟩ := List.mem_map.1 hc
    have hwd : isWordChar d := hw d hd
    have hrange : (0x61 ≤ d.toNat ∧ d.toNat ≤ 0x7A) ∨ (0x41 ≤ d.toNat ∧ d.toNat ≤ 0x5A) ∨
        (0x30 ≤ d.toNat ∧ d.toNat ≤ 0x39) ∨ d.toNat = 0x5F ∨
        (0x600 ≤ d.toNat ∧ d.toNat ≤ 0x6FF) := by
      simpa [isWordChar] using hwd
    have htn : c.toNat = if 65 ≤ d.toNat ∧ d.toNat ≤ 90 then d.toNat + 32 else d.toNat := by
      rw [← hdc]; exact toLower_toNat d
    by_cases hcase : 65 ≤ d.toNat ∧ d.toNat ≤ 90
    · rw [if_pos hcase] at htn
      omega
    · rw [if_neg hcase] at htn
      omega

/-- Witness for C7's amended theorem at `"#Kenya!"`, whose single match
normalizes to `"kenya"`. -/
theorem extractHashtags_normalized_witness :
    "kenya" ∈ extractHashtags "#Kenya!" ∧
    ((∃ run, run ≠ [] ∧ (∀ c ∈ run, isWordChar c) ∧ "kenya" = tagOf run) ∧
      "kenya" ≠ "" ∧
      ∀ c ∈ ("kenya" : String).data, c.toNat ≠ 35 ∧ ¬(65 ≤ c.toNat ∧ c.toNat ≤ 90)) :=
  ⟨by decide, extractHashtags_normalized "#Kenya!" "kenya" (by decide)⟩

/-- Counterexample for C7 as stated: the extractor does not deduplicate;
on `"#a #a"` the tag `"a"` is returned twice. -/
theorem extractHashtags_dup_counterexample :
    extractHashtags "#a #a" = ["a", "a"] ∧ ¬(extractHashtags "#a #a").Nodup := by
  constructor
  · decide
  · decide

/-- Witness for C3: the one-profile cache `cacheD` re-merging candidate
`candD`, which carries the same `did`. -/
theorem mergeCandidate_existing_witness :
    cacheD.profiles.lookup candD.did = some profD ∧
    (∃ q', (mergeCandidate cacheD 0 candD).1.profiles.lookup candD.did = some q' ∧
      q'.discoveredAt = profD.discoveredAt ∧
      q'.discoveredFrom = profD.discoveredFrom ∧
      q'.engagementScore = profD.engagementScore ∧
      profD.swahiliPostCount ≤ q'.swahiliPostCount) ∧
    (mergeCandidate cacheD 0 candD).1.totalDiscoveries = cacheD.totalDiscoveries ∧
    (mergeCandidate cacheD 0 candD).2 = 0 := by
  have h := mergeCandidate_existing cacheD 0 candD profD rfl
  exact ⟨rfl, h.1, h.2.2.1, h.2.2.2⟩

end Crawler
